import Mathlib

/-!
Shallow embedding of `src/main.py` (a PyQt video-to-GIF converter).

The worker thread `VideoConverterWorker.run` is modelled as a pure function
from an environment (the outcome of the ffmpeg preflight query, the directory
listing, and the outcome of each conversion subprocess) to a trace: the list
of emitted Qt signals, the conversion command lines passed to
`subprocess.run`, and whether `os.listdir` was reached.  The application
shell `VideoConverterApp` is modelled as a state machine over the fields the
claims mention: the stored directory path and the enabled state of the two
buttons.  Python strings are modelled as Lean strings; `str.lower` is
modelled per character by an explicit A-Z table (Python's lowering of
ASCII), and `os.path.join(d, f)` as `d ++ "/" ++ f` (the GUI hands the
worker a non-empty directory path, and `os.listdir` entries contain no
separator).
-/

namespace GIFME

/-- The three Qt signals of `VideoConverterWorker` (src/main.py lines 15-17):
`progress_update`, `conversion_finished`, `conversion_error`, each carrying a
human-readable string. -/
inductive Event where
  | progress (msg : String)
  | finished (msg : String)
  | error (msg : String)
  deriving DecidableEq, Repr

/-- The upper/lower pairs of the basic latin letters. -/
def upperLowerTable : List (Char × Char) :=
  [('A', 'a'), ('B', 'b'), ('C', 'c'), ('D', 'd'), ('E', 'e'), ('F', 'f'),
   ('G', 'g'), ('H', 'h'), ('I', 'i'), ('J', 'j'), ('K', 'k'), ('L', 'l'),
   ('M', 'm'), ('N', 'n'), ('O', 'o'), ('P', 'p'), ('Q', 'q'), ('R', 'r'),
   ('S', 's'), ('T', 't'), ('U', 'u'), ('V', 'v'), ('W', 'w'), ('X', 'x'),
   ('Y', 'y'), ('Z', 'z')]

/-- Python `str.lower` per character, written out on the ASCII range: the
letters A-Z map to a-z and every other ASCII character is unchanged, exactly
as Python lowercases ASCII input (the seven extensions compared against are
ASCII, so only this range matters to the program). -/
def lowerChar (c : Char) : Char :=
  match upperLowerTable.find? (fun p => p.1 = c) with
  | some p => p.2
  | none => c

/-- Python `str.lower`, applied per character. -/
def strLower (s : String) : String := ⟨s.data.map lowerChar⟩

/-- Python `str.endswith`: the suffix test on the underlying character
lists. -/
def strEndsWith (s sfx : String) : Bool := decide (sfx.data <:+ s.data)

/-- `self.video_extensions` (src/main.py line 22). -/
def video_extensions : List String :=
  [".mp4", ".mkv", ".avi", ".mov", ".webm", ".flv", ".wmv"]

/-- The candidate test `filename.lower().endswith(self.video_extensions)`
(src/main.py line 37); Python `endswith` applied to a tuple is true when any
member is a suffix. -/
def isVideoFile (filename : String) : Bool :=
  video_extensions.any (fun ext => strEndsWith (strLower filename) ext)

/-- The first pass of `run` (src/main.py lines 36-39): the candidate list,
in directory-listing order. -/
def candidateSet (listing : List String) : List String :=
  listing.filter isVideoFile

/-- Python `str.rfind` specialised to the dot character: the index of the
last occurrence, `none` when absent. -/
def rfindDot : List Char → Option Nat
  | [] => none
  | c :: cs =>
    match rfindDot cs with
    | some j => some (j + 1)
    | none => if c = '.' then some 0 else none

/-- The root part of `os.path.splitext(p)` for a bare file name (no path
separator, which is what `os.listdir` yields): the extension starts at the
last dot, unless every character before that dot is itself a dot (leading
dots of a name never open an extension), in which case the extension is
empty and the root is the whole name. -/
def splitextRoot (p : String) : String :=
  match rfindDot p.data with
  | none => p
  | some d => if (p.data.take d).all (fun c => c = '.') then p else ⟨p.data.take d⟩

/-- `output_filename = os.path.splitext(filename)[0] + '.gif'`
(src/main.py line 52). -/
def output_filename (filename : String) : String := splitextRoot filename ++ ".gif"

/-- `os.path.join(self.directory_path, name)` for the non-empty,
separator-free arguments this program supplies. -/
def joinPath (dir name : String) : String := dir ++ "/" ++ name

/-- `output_path` (src/main.py line 53). -/
def output_path (dir filename : String) : String := joinPath dir (output_filename filename)

/-- The ffmpeg command list built at src/main.py lines 65-71. -/
def convertCommand (dir filename : String) : List String :=
  ["ffmpeg", "-i", joinPath dir filename,
   "-vf", "fps=10,scale=320:-1:flags=lanczos", "-y", output_path dir filename]

/-- Message emitted at src/main.py lines 27-28. -/
def ffmpegMissingMsg : String :=
  "FFmpeg is not installed or not in your system\x27s PATH.\nPlease install FFmpeg to use this converter."

/-- Message emitted at src/main.py line 42. -/
def noVideosMsg : String := "No video files found in the selected directory."

/-- Message emitted at src/main.py line 43. -/
def emptyFinishedMsg : String := "Conversion process completed (no videos to convert)."

/-- Message emitted at src/main.py line 46. -/
def foundMsg (total : Nat) : String := s!"Found {total} video(s). Starting conversion..."

/-- Message emitted at src/main.py line 55 (`i` is the 0-based enumerate
index). -/
def convertingMsg (filename : String) (i total : Nat) : String :=
  s!"Converting \x27{filename}\x27 ({i + 1}/{total})..."

/-- Message emitted at src/main.py line 75. -/
def successMsg (filename out : String) : String :=
  s!"Successfully converted \x27{filename}\x27 to \x27{out}\x27."

/-- Message emitted at src/main.py line 77. -/
def errorProgressMsg (filename stderr : String) : String :=
  s!"Error converting \x27{filename}\x27: {stderr}"

/-- Message emitted at src/main.py line 78. -/
def errorEventMsg (filename stderr : String) : String :=
  s!"Failed to convert \x27{filename}\x27. Error: {stderr}"

/-- Message emitted at src/main.py line 80. -/
def ffmpegGoneMsg : String :=
  "FFmpeg command not found. Please ensure FFmpeg is installed and in your PATH."

/-- Message emitted at src/main.py line 83. -/
def finishedMsg (converted total : Nat) : String :=
  s!"Conversion process completed. Converted {converted} of {total} videos."

/-- The observable outcome of `subprocess.run(['ffmpeg', '-version'],
capture_output=True, check=True, text=True)` (src/main.py line 88): normal
return, `CalledProcessError` (ran but exited non-zero, because of
`check=True`), or `FileNotFoundError` (the binary cannot be found). -/
inductive VersionQueryOutcome where
  | ok
  | nonzeroExit
  | notFound
  deriving DecidableEq, Repr

/-- `VideoConverterWorker._is_ffmpeg_installed` (src/main.py lines 85-91):
`True` on normal return of the version query, `False` when the query raises
`CalledProcessError` or `FileNotFoundError`. -/
def is_ffmpeg_installed : VersionQueryOutcome → Bool
  | .ok => true
  | .nonzeroExit => false
  | .notFound => false

/-- The observable outcome of one conversion `subprocess.run(command,
capture_output=True, text=True, check=True)` (src/main.py line 73): normal
return (exit status 0), `CalledProcessError` carrying the captured standard
error text, or `FileNotFoundError`. -/
inductive InvokeOutcome where
  | success
  | calledProcessError (stderr : String)
  | fileNotFound
  deriving DecidableEq, Repr

/-- Everything outside the program that one worker run observes: the stored
directory path, the preflight query outcome, the `os.listdir` result, and
the outcome of the conversion subprocess for each enumerate index. -/
structure WorkerEnv where
  directory_path : String
  ffmpeg : VersionQueryOutcome
  listing : List String
  invoke : Nat → InvokeOutcome

/-- Trace of the per-candidate loop: emitted events, attempted conversion
command lines, final `converted_count`, and whether the loop returned early
through the `FileNotFoundError` branch. -/
structure LoopResult where
  events : List Event
  commands : List (List String)
  converted : Nat
  aborted : Bool
  deriving DecidableEq, Repr

/-- The second pass of `run` (src/main.py lines 49-81): one iteration per
candidate, `i` the enumerate index, `converted` the running
`converted_count`. -/
def runLoop (dir : String) (invoke : Nat → InvokeOutcome) (total : Nat) :
    List String → Nat → Nat → LoopResult
  | [], _, converted => ⟨[], [], converted, false⟩
  | filename :: rest, i, converted =>
    let cmd := convertCommand dir filename
    match invoke i with
    | .success =>
      let r := runLoop dir invoke total rest (i + 1) (converted + 1)
      ⟨Event.progress (convertingMsg filename i total)
         :: Event.progress (successMsg filename (output_filename filename)) :: r.events,
       cmd :: r.commands, r.converted, r.aborted⟩
    | .calledProcessError stderr =>
      let r := runLoop dir invoke total rest (i + 1) converted
      ⟨Event.progress (convertingMsg filename i total)
         :: Event.progress (errorProgressMsg filename stderr)
         :: Event.error (errorEventMsg filename stderr) :: r.events,
       cmd :: r.commands, r.converted, r.aborted⟩
    | .fileNotFound =>
      ⟨[Event.progress (convertingMsg filename i total), Event.error ffmpegGoneMsg],
       [cmd], converted, true⟩

/-- Trace of one whole worker run: emitted events, attempted conversion
command lines, and whether control reached the `os.listdir` call. -/
structure RunResult where
  events : List Event
  commands : List (List String)
  listedDir : Bool
  deriving DecidableEq, Repr

/-- `VideoConverterWorker.run` (src/main.py lines 24-83). -/
def workerRun (env : WorkerEnv) : RunResult :=
  if is_ffmpeg_installed env.ffmpeg = false then
    ⟨[Event.error ffmpegMissingMsg], [], false⟩
  else
    let video_files := candidateSet env.listing
    let total_videos := video_files.length
    if total_videos = 0 then
      ⟨[Event.progress noVideosMsg, Event.finished emptyFinishedMsg], [], true⟩
    else
      let r := runLoop env.directory_path env.invoke total_videos video_files 0 0
      ⟨Event.progress (foundMsg total_videos) :: r.events
         ++ (if r.aborted then [] else [Event.finished (finishedMsg r.converted total_videos)]),
       r.commands, true⟩

/-- Number of successful conversion outcomes among enumerate indices
`i, i+1, ..., i+n-1`. -/
def countSuccess (invoke : Nat → InvokeOutcome) (i : Nat) : Nat → Nat
  | 0 => 0
  | m + 1 => (if invoke i = .success then 1 else 0) + countSuccess invoke (i + 1) m

/-- Recogniser for finished events (used to count them in a trace). -/
def isFinishedEvent : Event → Bool
  | .finished _ => true
  | _ => false

/-- The shell state the claims mention (`VideoConverterApp`): the stored
`self.directory_path` and the enabled state of `browse_button` and
`convert_button`.  The log widget, status label and message boxes carry no
state the claims depend on. -/
structure AppState where
  directory_path : String
  browse_enabled : Bool
  convert_enabled : Bool
  deriving DecidableEq, Repr

/-- State after `_init_ui` (src/main.py lines 104-143): no directory stored,
browse enabled, convert disabled (line 131). -/
def initState : AppState := ⟨"", true, false⟩

/-- `VideoConverterApp._browse_directory` (src/main.py lines 145-160);
`directory` is the dialog result, the empty string when the user cancels
(Python truthiness of the returned string selects the branch). -/
def browse_directory (s : AppState) (directory : String) : AppState :=
  if directory ≠ "" then
    { s with directory_path := directory, convert_enabled := true }
  else
    { s with directory_path := "", convert_enabled := false }

/-- `VideoConverterApp._start_conversion` (src/main.py lines 162-179): a
guard on an empty stored path, then both buttons disabled and the worker
started. -/
def start_conversion (s : AppState) : AppState :=
  if s.directory_path = "" then s
  else { s with browse_enabled := false, convert_enabled := false }

/-- Delivery of one worker event to the shell: `_update_log` changes no
modelled state; `_conversion_finished` (lines 186-193) and
`_conversion_error` (lines 195-201) re-enable browse and re-enable convert
only when a directory is still stored. -/
def deliver (s : AppState) (e : Event) : AppState :=
  match e with
  | .progress _ => s
  | .finished _ =>
    { s with browse_enabled := true,
             convert_enabled := if s.directory_path ≠ "" then true else s.convert_enabled }
  | .error _ =>
    { s with browse_enabled := true,
             convert_enabled := if s.directory_path ≠ "" then true else s.convert_enabled }

/-- One interaction with the shell: a click on a button (a no-op while the
button is disabled, since Qt delivers no click to a disabled widget) or the
arrival of one worker event. -/
inductive ShellStep where
  | browseClick (directory : String)
  | startClick
  | workerEvent (e : Event)
  deriving DecidableEq, Repr

/-- Shell transition function. -/
def shellStep (s : AppState) : ShellStep → AppState
  | .browseClick d => if s.browse_enabled then browse_directory s d else s
  | .startClick => if s.convert_enabled then start_conversion s else s
  | .workerEvent e => deliver s e

/-- Shell state reached from startup by a sequence of interactions. -/
def runShell (steps : List ShellStep) : AppState := steps.foldl shellStep initState

/-- Spelled out from the spec's words, for comparison with `isVideoFile`:
"the candidate set equals exactly the entries whose lowercased name ends
with one of the seven recognized extensions". -/
def spec_recognized (name : String) : Bool :=
  strEndsWith (strLower name) ".mp4" || strEndsWith (strLower name) ".mkv" ||
  strEndsWith (strLower name) ".avi" || strEndsWith (strLower name) ".mov" ||
  strEndsWith (strLower name) ".webm" || strEndsWith (strLower name) ".flv" ||
  strEndsWith (strLower name) ".wmv"

/-- The per-candidate subprocess outcomes and the run environment of the C1
counterexample: two candidates, the first failing with a non-zero exit, the
second succeeding. -/
def c1Env : WorkerEnv :=
  ⟨"/videos", VersionQueryOutcome.ok, ["a.mp4", "b.mp4"],
   fun i => if i = 0 then InvokeOutcome.calledProcessError "boom" else InvokeOutcome.success⟩

/-- The loop trace of one run, at the arguments `run` passes it. -/
def workerLoopResult (env : WorkerEnv) : LoopResult :=
  runLoop env.directory_path env.invoke (candidateSet env.listing).length
    (candidateSet env.listing) 0 0

/-! Helper lemmas. -/

theorem lowerChar_eq_dot {c : Char} (h : lowerChar c = '.') : c = '.' := by
  unfold lowerChar at h
  cases hf : upperLowerTable.find? (fun p => p.1 = c) with
  | none => rw [hf] at h; exact h
  | some p =>
    rw [hf] at h
    have hmem : p ∈ upperLowerTable := List.mem_of_find?_eq_some hf
    have hall : ∀ q ∈ upperLowerTable, q.2 ≠ ('.' : Char) := by decide
    exact absurd h (hall p hmem)

theorem lowerChar_mem_of_mem {c : Char} {l : List Char} (h : c ∈ l) :
    lowerChar c ∈ l.map lowerChar :=
  List.mem_map_of_mem lowerChar h

theorem rfindDot_eq_none {cs : List Char} (h : '.' ∉ cs) : rfindDot cs = none := by
  induction cs with
  | nil => rfl
  | cons c rest ih =>
    have hc : ¬ c = '.' := fun hc => h (hc ▸ List.mem_cons_self c rest)
    have hr : '.' ∉ rest := fun hr => h (List.mem_cons_of_mem c hr)
    simp [rfindDot, ih hr, hc]

theorem rfindDot_append {ys : List Char} {j : Nat} (xs : List Char)
    (h : rfindDot ys = some j) : rfindDot (xs ++ ys) = some (xs.length + j) := by
  induction xs with
  | nil => simpa using h
  | cons c cs ih =>
    simp only [List.cons_append, rfindDot, List.append_eq, ih, List.length_cons,
      Option.some.injEq]
    omega

theorem countSuccess_le (invoke : Nat → InvokeOutcome) :
    ∀ (n i : Nat), countSuccess invoke i n ≤ n := by
  intro n
  induction n with
  | zero => intro i; exact Nat.le_refl 0
  | succ m ih =>
    intro i
    have := ih (i + 1)
    simp only [countSuccess]
    split <;> omega

theorem countSuccess_all (invoke : Nat → InvokeOutcome) :
    ∀ (n i : Nat), (∀ j, j < n → invoke (i + j) = InvokeOutcome.success) →
      countSuccess invoke i n = n := by
  intro n
  induction n with
  | zero => intro i _; rfl
  | succ m ih =>
    intro i h
    have h0 : invoke i = InvokeOutcome.success := by
      have := h 0 (Nat.succ_pos m); simpa using this
    have hrest : countSuccess invoke (i + 1) m = m := by
      refine ih (i + 1) (fun j hj => ?_)
      have := h (j + 1) (Nat.succ_lt_succ hj)
      simpa [Nat.add_assoc, Nat.add_comm 1 j] using this
    rw [show countSuccess invoke i (m + 1)
          = (if invoke i = InvokeOutcome.success then 1 else 0)
              + countSuccess invoke (i + 1) m from rfl,
        if_pos h0, hrest]
    omega

theorem countSuccess_lt (invoke : Nat → InvokeOutcome) :
    ∀ (n i k : Nat), k < n → invoke (i + k) ≠ InvokeOutcome.success →
      countSuccess invoke i n < n := by
  intro n
  induction n with
  | zero => intro i k hk; omega
  | succ m ih =>
    intro i k hk hne
    cases k with
    | zero =>
      have h0 : ¬ invoke i = InvokeOutcome.success := by simpa using hne
      have := countSuccess_le invoke m (i + 1)
      simp only [countSuccess, if_neg h0]
      omega
    | succ k' =>
      have hk' : k' < m := Nat.lt_of_succ_lt_succ hk
      have hne' : invoke (i + 1 + k') ≠ InvokeOutcome.success := by
        intro hcon
        exact hne (by simpa [Nat.add_assoc, Nat.add_comm 1 k'] using hcon)
      have := ih (i + 1) k' hk' hne'
      simp only [countSuccess]
      split <;> omega

theorem runLoop_filter_finished (dir : String) (invoke : Nat → InvokeOutcome) (total : Nat) :
    ∀ (cs : List String) (i converted : Nat),
      (runLoop dir invoke total cs i converted).events.filter isFinishedEvent = [] := by
  intro cs
  induction cs with
  | nil => intro i c; rfl
  | cons f rest ih =>
    intro i c
    cases hinv : invoke i with
    | success =>
      simp only [runLoop, hinv]
      simp [isFinishedEvent, ih (i + 1) (c + 1)]
    | calledProcessError e =>
      simp only [runLoop, hinv]
      simp [isFinishedEvent, ih (i + 1) c]
    | fileNotFound =>
      simp only [runLoop, hinv]
      simp [isFinishedEvent]

theorem runLoop_complete (dir : String) (invoke : Nat → InvokeOutcome) (total : Nat) :
    ∀ (cs : List String) (i converted : Nat),
      (∀ j, j < cs.length → invoke (i + j) ≠ InvokeOutcome.fileNotFound) →
      (runLoop dir invoke total cs i converted).aborted = false ∧
      (runLoop dir invoke total cs i converted).converted
        = converted + countSuccess invoke i cs.length ∧
      (runLoop dir invoke total cs i converted).commands.length = cs.length := by
  intro cs
  induction cs with
  | nil =>
    intro i c _
    refine ⟨rfl, ?_, rfl⟩
    simp [runLoop, countSuccess]
  | cons f rest ih =>
    intro i c h
    have hrest : ∀ j, j < rest.length → invoke (i + 1 + j) ≠ InvokeOutcome.fileNotFound := by
      intro j hj
      have := h (j + 1) (Nat.succ_lt_succ hj)
      simpa [Nat.add_assoc, Nat.add_comm 1 j] using this
    have hcount : countSuccess invoke i (rest.length + 1)
        = (if invoke i = InvokeOutcome.success then 1 else 0)
            + countSuccess invoke (i + 1) rest.length := rfl
    cases hinv : invoke i with
    | success =>
      obtain ⟨ha, hc, hl⟩ := ih (i + 1) (c + 1) hrest
      simp only [runLoop, hinv]
      refine ⟨ha, ?_, ?_⟩
      · rw [hc, List.length_cons, hcount, if_pos hinv]
        omega
      · simp [hl]
    | calledProcessError e =>
      obtain ⟨ha, hc, hl⟩ := ih (i + 1) c hrest
      simp only [runLoop, hinv]
      refine ⟨ha, ?_, ?_⟩
      · rw [hc, List.length_cons, hcount, if_neg (by simp [hinv]), Nat.zero_add]
      · simp [hl]
    | fileNotFound =>
      exfalso
      have := h 0 (Nat.succ_pos rest.length)
      simp [hinv] at this

theorem runLoop_error_mem (dir : String) (invoke : Nat → InvokeOutcome) (total : Nat) :
    ∀ (cs : List String) (i converted k : Nat) (stderr : String),
      k < cs.length →
      invoke (i + k) = InvokeOutcome.calledProcessError stderr →
      (∀ j, j < k → invoke (i + j) ≠ InvokeOutcome.fileNotFound) →
      Event.progress (errorProgressMsg (cs.getD k "") stderr)
          ∈ (runLoop dir invoke total cs i converted).events ∧
      Event.error (errorEventMsg (cs.getD k "") stderr)
          ∈ (runLoop dir invoke total cs i converted).events := by
  intro cs
  induction cs with
  | nil => intro i c k e hk; exact absurd hk (by simp)
  | cons f rest ih =>
    intro i c k e hk hcpe hnf
    cases k with
    | zero =>
      have h0 : invoke i = InvokeOutcome.calledProcessError e := by simpa using hcpe
      simp only [runLoop, h0]
      constructor
      · simp [List.getD_cons_zero]
      · simp [List.getD_cons_zero]
    | succ k' =>
      have hk' : k' < rest.length := Nat.lt_of_succ_lt_succ hk
      have hcpe' : invoke (i + 1 + k') = InvokeOutcome.calledProcessError e := by
        simpa [Nat.add_assoc, Nat.add_comm 1 k'] using hcpe
      have hnf' : ∀ j, j < k' → invoke (i + 1 + j) ≠ InvokeOutcome.fileNotFound := by
        intro j hj
        have := hnf (j + 1) (Nat.succ_lt_succ hj)
        simpa [Nat.add_assoc, Nat.add_comm 1 j] using this
      have h0 : invoke i ≠ InvokeOutcome.fileNotFound := by
        have := hnf 0 (Nat.succ_pos k')
        simpa using this
      cases hinv : invoke i with
      | success =>
        obtain ⟨hp, he⟩ := ih (i + 1) (c + 1) k' e hk' hcpe' hnf'
        simp only [runLoop, hinv]
        rw [List.getD_cons_succ]
        exact ⟨List.mem_cons_of_mem _ (List.mem_cons_of_mem _ hp),
               List.mem_cons_of_mem _ (List.mem_cons_of_mem _ he)⟩
      | calledProcessError e2 =>
        obtain ⟨hp, he⟩ := ih (i + 1) c k' e hk' hcpe' hnf'
        simp only [runLoop, hinv]
        rw [List.getD_cons_succ]
        exact ⟨List.mem_cons_of_mem _ (List.mem_cons_of_mem _ (List.mem_cons_of_mem _ hp)),
               List.mem_cons_of_mem _ (List.mem_cons_of_mem _ (List.mem_cons_of_mem _ he))⟩
      | fileNotFound => exact absurd hinv h0

theorem runLoop_fnf (dir : String) (invoke : Nat → InvokeOutcome) (total : Nat) :
    ∀ (cs : List String) (i converted k : Nat),
      k < cs.length →
      invoke (i + k) = InvokeOutcome.fileNotFound →
      (∀ j, j < k → invoke (i + j) ≠ InvokeOutcome.fileNotFound) →
      (runLoop dir invoke total cs i converted).aborted = true ∧
      (runLoop dir invoke total cs i converted).commands.length = k + 1 ∧
      Event.error ffmpegGoneMsg ∈ (runLoop dir invoke total cs i converted).events := by
  intro cs
  induction cs with
  | nil => intro i c k hk; exact absurd hk (by simp)
  | cons f rest ih =>
    intro i c k hk hfnf hfirst
    cases k with
    | zero =>
      have h0 : invoke i = InvokeOutcome.fileNotFound := by simpa using hfnf
      refine ⟨?_, ?_, ?_⟩ <;> simp [runLoop, h0]
    | succ k' =>
      have hk' : k' < rest.length := Nat.lt_of_succ_lt_succ hk
      have hfnf' : invoke (i + 1 + k') = InvokeOutcome.fileNotFound := by
        simpa [Nat.add_assoc, Nat.add_comm 1 k'] using hfnf
      have hfirst' : ∀ j, j < k' → invoke (i + 1 + j) ≠ InvokeOutcome.fileNotFound := by
        intro j hj
        have := hfirst (j + 1) (Nat.succ_lt_succ hj)
        simpa [Nat.add_assoc, Nat.add_comm 1 j] using this
      have h0 : invoke i ≠ InvokeOutcome.fileNotFound := by
        have := hfirst 0 (Nat.succ_pos k')
        simpa using this
      cases hinv : invoke i with
      | success =>
        obtain ⟨ha, hl, he⟩ := ih (i + 1) (c + 1) k' hk' hfnf' hfirst'
        simp only [runLoop, hinv]
        exact ⟨ha, by simp [hl],
               List.mem_cons_of_mem _ (List.mem_cons_of_mem _ he)⟩
      | calledProcessError e2 =>
        obtain ⟨ha, hl, he⟩ := ih (i + 1) c k' hk' hfnf' hfirst'
        simp only [runLoop, hinv]
        exact ⟨ha, by simp [hl],
               List.mem_cons_of_mem _ (List.mem_cons_of_mem _ (List.mem_cons_of_mem _ he))⟩
      | fileNotFound => exact absurd hinv h0

theorem workerRun_ok (env : WorkerEnv)
    (hok : env.ffmpeg = VersionQueryOutcome.ok)
    (hne : candidateSet env.listing ≠ []) :
    workerRun env =
      ⟨Event.progress (foundMsg (candidateSet env.listing).length)
          :: (workerLoopResult env).events
          ++ (if (workerLoopResult env).aborted then []
              else [Event.finished (finishedMsg (workerLoopResult env).converted
                      (candidateSet env.listing).length)]),
       (workerLoopResult env).commands, true⟩ := by
  have hins : is_ffmpeg_installed env.ffmpeg = true := by rw [hok]; rfl
  have hlen : ¬ (candidateSet env.listing).length = 0 := by
    simpa [List.length_eq_zero] using hne
  simp only [workerRun, workerLoopResult, hins, hlen, if_neg, Bool.true_eq_false,
    if_false, ite_false]

theorem lower_shape {l target : List Char}
    (h : l.map lowerChar = target)
    (ht : target ≠ []) (hhead : target.head? = some '.')
    (htail : '.' ∉ target.tail) (hne : target.tail ≠ []) :
    ∃ tail, l = '.' :: tail ∧ '.' ∉ tail ∧ tail ≠ [] := by
  cases l with
  | nil => exact absurd h.symm (by simpa using ht)
  | cons a t =>
    simp only [List.map_cons] at h
    have hhd : lowerChar a = '.' := by
      rw [← h] at hhead
      simpa using hhead
    have hta : t.map lowerChar = target.tail := by
      rw [← h]; rfl
    refine ⟨t, by rw [lowerChar_eq_dot hhd], ?_, ?_⟩
    · intro hmem
      have : lowerChar '.' ∈ t.map lowerChar := List.mem_map_of_mem lowerChar hmem
      rw [hta] at this
      exact htail (by simpa [lowerChar] using this)
    · intro hnil
      rw [hnil] at hta
      exact hne (by simpa using hta.symm)

theorem ext_shape {extc : List Char}
    (hext : strLower ⟨extc⟩ ∈ video_extensions) :
    ∃ etail, extc = '.' :: etail ∧ '.' ∉ etail ∧ etail ≠ [] := by
  have hmap : extc.map lowerChar ∈ video_extensions.map String.data :=
    List.mem_map_of_mem String.data hext
  simp only [video_extensions, List.map_cons, List.map_nil, List.mem_cons,
    List.not_mem_nil, or_false] at hmap
  rcases hmap with h | h | h | h | h | h | h <;>
    exact lower_shape h (by decide) (by decide) (by decide) (by decide)

theorem take_len_append (xs ys : List Char) : (xs ++ ys).take xs.length = xs :=
  List.take_left xs ys

theorem splitextRoot_stem_ext (stem etail : List Char)
    (hnodot : '.' ∉ etail) (hstem : stem.all (fun c => c = '.') = false) :
    splitextRoot ⟨stem ++ '.' :: etail⟩ = ⟨stem⟩ := by
  have hfind : rfindDot (stem ++ '.' :: etail) = some stem.length := by
    have h0 : rfindDot ('.' :: etail) = some 0 := by
      simp [rfindDot, rfindDot_eq_none hnodot]
    simpa using rfindDot_append stem h0
  have hdata : (⟨stem ++ '.' :: etail⟩ : String).data = stem ++ '.' :: etail := rfl
  simp only [splitextRoot, hdata, hfind]
  rw [take_len_append]
  simp [hstem]

theorem shellStep_inv (s : AppState) (st : ShellStep)
    (h : s.convert_enabled = true → s.directory_path ≠ "") :
    (shellStep s st).convert_enabled = true → (shellStep s st).directory_path ≠ "" := by
  cases st with
  | browseClick d =>
    by_cases hb : s.browse_enabled = true
    · by_cases hd : d = ""
      · simp [shellStep, hb, browse_directory, hd]
      · simp [shellStep, hb, browse_directory, hd]
    · simp only [shellStep]
      rw [if_neg hb]
      exact h
  | startClick =>
    by_cases hc : s.convert_enabled = true
    · by_cases hd : s.directory_path = ""
      · simp only [shellStep]
        rw [if_pos hc]
        simp only [start_conversion]
        rw [if_pos hd]
        exact h
      · simp [shellStep, hc, start_conversion, hd]
    · simp only [shellStep]
      rw [if_neg hc]
      exact h
  | workerEvent e =>
    cases e with
    | progress m => exact h
    | finished m =>
      by_cases hd : s.directory_path = ""
      · simp only [shellStep, deliver, hd]
        simpa [hd] using h
      · simp [shellStep, deliver, hd]
    | error m =>
      by_cases hd : s.directory_path = ""
      · simp only [shellStep, deliver, hd]
        simpa [hd] using h
      · simp [shellStep, deliver, hd]

theorem shell_inv (steps : List ShellStep) :
    (runShell steps).convert_enabled = true → (runShell steps).directory_path ≠ "" := by
  suffices hgen : ∀ (l : List ShellStep) (s : AppState),
      (s.convert_enabled = true → s.directory_path ≠ "") →
      ((l.foldl shellStep s).convert_enabled = true → (l.foldl shellStep s).directory_path ≠ "") by
    exact hgen steps initState (by intro hfalse; exact absurd hfalse (by simp [initState]))
  intro l
  induction l with
  | nil => intro s h; exact h
  | cons st rest ih =>
    intro s h
    exact ih (shellStep s st) (shellStep_inv s st h)

theorem start_click_disables (s : AppState)
    (hinv : s.convert_enabled = true → s.directory_path ≠ "") :
    (shellStep s ShellStep.startClick).convert_enabled = false := by
  by_cases hc : s.convert_enabled = true
  · have hd := hinv hc
    simp [shellStep, hc, start_conversion, hd]
  · simp only [shellStep]
    rw [if_neg hc]
    simpa using hc

theorem deliver_progress_keeps_disabled (msgs : List String) :
    ∀ s : AppState, s.convert_enabled = false →
      ((msgs.map Event.progress).foldl deliver s).convert_enabled = false := by
  induction msgs with
  | nil => intro s h; exact h
  | cons m rest ih =>
    intro s h
    simpa using ih s h

/-! The claims. -/

/-- C4: for every run whose candidate set is empty (the preflight having
succeeded), the worker emits exactly one progress event ("No video files
found in the selected directory.") followed by exactly one finished event
stating completion with zero conversions; the total candidate count is 0,
the converted count is 0 (no conversion command is ever attempted), and no
conversion subprocess is invoked. -/
theorem empty_run_events (env : WorkerEnv)
    (hok : env.ffmpeg = VersionQueryOutcome.ok)
    (hempty : candidateSet env.listing = []) :
    workerRun env =
      ⟨[Event.progress noVideosMsg, Event.finished emptyFinishedMsg], [], true⟩ ∧
    (candidateSet env.listing).length = 0 := by
  have hins : is_ffmpeg_installed env.ffmpeg = true := by rw [hok]; rfl
  constructor
  · simp [workerRun, hins, hempty]
  · simp [hempty]

/-- C4 witness: a directory holding only "notes.txt". -/
theorem empty_run_events_witness :
    workerRun ⟨"/v", VersionQueryOutcome.ok, ["notes.txt"], fun _ => InvokeOutcome.success⟩ =
        ⟨[Event.progress noVideosMsg, Event.finished emptyFinishedMsg], [], true⟩ ∧
    (candidateSet ["notes.txt"]).length = 0 :=
  empty_run_events _ rfl (by decide)

/-- C7: for every run whose preflight availability check reports ffmpeg
unavailable, the worker emits exactly one event, the error event describing
the missing dependency, performs no directory enumeration (control never
reaches `os.listdir`) and attempts no conversion subprocess. -/
theorem preflight_unavailable_run (env : WorkerEnv)
    (hbad : env.ffmpeg ≠ VersionQueryOutcome.ok) :
    workerRun env = ⟨[Event.error ffmpegMissingMsg], [], false⟩ := by
  cases henv : env.ffmpeg with
  | ok => exact absurd henv hbad
  | nonzeroExit => simp [workerRun, is_ffmpeg_installed, henv]
  | notFound => simp [workerRun, is_ffmpeg_installed, henv]

/-- C7 witness: the ffmpeg binary is missing at preflight. -/
theorem preflight_unavailable_run_witness :
    workerRun ⟨"/v", VersionQueryOutcome.notFound, ["a.mp4"], fun _ => InvokeOutcome.success⟩ =
      ⟨[Event.error ffmpegMissingMsg], [], false⟩ :=
  preflight_unavailable_run _ (by decide)

/-- C10: the preflight check reports ffmpeg unavailable in exactly two
cases — the version-query binary cannot be found, or the query runs but
exits non-zero — and available otherwise (normal zero-exit return); an
installed converter whose version query fails is treated identically to a
missing one. -/
theorem preflight_unavailable_cases :
    (∀ o : VersionQueryOutcome,
        is_ffmpeg_installed o = false
          ↔ (o = VersionQueryOutcome.notFound ∨ o = VersionQueryOutcome.nonzeroExit)) ∧
    is_ffmpeg_installed VersionQueryOutcome.nonzeroExit
      = is_ffmpeg_installed VersionQueryOutcome.notFound := by
  refine ⟨?_, rfl⟩
  intro o
  cases o <;> simp [is_ffmpeg_installed]

/-- C6: for every directory listing, the candidate set equals exactly the
entries whose lowercased name ends with one of the seven recognized
extensions, preserved in directory-listing order (it is a sublist of the
listing), and an entry is a candidate exactly when it is a listing entry
recognized by that suffix test — so non-matching entries never appear in
the candidate set or its count. -/
theorem candidate_set_exact (listing : List String) :
    candidateSet listing = listing.filter spec_recognized ∧
    (candidateSet listing).Sublist listing ∧
    (∀ f, f ∈ candidateSet listing ↔ (f ∈ listing ∧ spec_recognized f = true)) := by
  have hpt : ∀ f, isVideoFile f = spec_recognized f := by
    intro f
    simp [isVideoFile, spec_recognized, video_extensions, Bool.or_assoc]
  refine ⟨?_, ?_, ?_⟩
  · exact List.filter_congr (fun a _ => hpt a)
  · exact List.filter_sublist listing
  · intro f
    rw [candidateSet, List.mem_filter, hpt f]

/-- C9: every directory entry whose name starts with a dot, contains no
further dot, and (lowercased) ends with a recognized extension is selected
as a candidate whenever it is listed, and its derived output name is the
full original name with ".gif" appended — the extension is not replaced. -/
theorem dotfile_candidate_output (name : String) (rest : List Char)
    (hdot : name.data = '.' :: rest)
    (hnodot : '.' ∉ rest)
    (hvid : isVideoFile name = true) :
    (∀ listing : List String, name ∈ listing → name ∈ candidateSet listing) ∧
    output_filename name = name ++ ".gif" := by
  refine ⟨?_, ?_⟩
  · intro listing hmem
    exact List.mem_filter.mpr ⟨hmem, hvid⟩
  · have hr : rfindDot name.data = some 0 := by
      rw [hdot]
      simp [rfindDot, rfindDot_eq_none hnodot]
    have hroot : splitextRoot name = name := by
      simp [splitextRoot, hr]
    rw [output_filename, hroot]

/-- C9 witness: the entry ".mp4" is selected and yields output ".mp4.gif". -/
theorem dotfile_candidate_output_witness :
    ".mp4" ∈ candidateSet [".mp4"] ∧ output_filename ".mp4" = ".mp4" ++ ".gif" := by
  have h := dotfile_candidate_output ".mp4" (['m', 'p', '4']) (by decide) (by decide) (by decide)
  exact ⟨h.1 [".mp4"] (by decide), h.2⟩

/-- C8 counterexample: ".mp4" is selected as a candidate (its lowercased
name ends with the recognized extension ".mp4"), yet its derived output
name is ".mp4.gif" — the full name with ".gif" appended — and not ".gif",
which the base name with its recognized extension replaced would give, so
the claimed output shape fails on this candidate. -/
theorem output_name_counterexample :
    isVideoFile ".mp4" = true ∧
    output_filename ".mp4" = ".mp4.gif" ∧
    output_filename ".mp4" ≠ ".gif" ∧
    output_path "/videos" ".mp4" = "/videos" ++ "/" ++ ".mp4.gif" := by decide

/-- C8 (amended): for every candidate file name of the form stem ++ ext
whose lowercased extension ext is one of the seven recognized extensions
and whose stem contains at least one character that is not a dot, the
derived output path lies in the same directory and is the stem with ".gif"
appended — the extension replaced — and in particular "clip.MP4" yields
output name "clip.gif"; names whose stem is empty or all dots (such as
".mp4") instead get ".gif" appended to the whole name. -/
theorem output_extension_replaced (dir : String) (stem extc : List Char)
    (hext : strLower ⟨extc⟩ ∈ video_extensions)
    (hstem : stem.all (fun c => c = '.') = false) :
    isVideoFile ⟨stem ++ extc⟩ = true ∧
    output_path dir ⟨stem ++ extc⟩ = dir ++ "/" ++ (⟨stem⟩ : String) ++ ".gif" := by
  obtain ⟨etail, hec, hnd, hnee⟩ := ext_shape hext
  subst hec
  have hsplit : splitextRoot ⟨stem ++ '.' :: etail⟩ = ⟨stem⟩ :=
    splitextRoot_stem_ext stem etail hnd hstem
  refine ⟨?_, ?_⟩
  · show video_extensions.any
        (fun ext => strEndsWith (strLower ⟨stem ++ '.' :: etail⟩) ext) = true
    apply List.any_eq_true.mpr
    refine ⟨strLower ⟨'.' :: etail⟩, hext, ?_⟩
    apply decide_eq_true
    show (strLower ⟨'.' :: etail⟩).data <:+ (strLower ⟨stem ++ '.' :: etail⟩).data
    have h2 : (strLower ⟨stem ++ '.' :: etail⟩).data
        = stem.map lowerChar ++ ('.' :: etail).map lowerChar := by
      show (stem ++ '.' :: etail).map lowerChar = _
      rw [List.map_append]
    rw [h2]
    exact List.suffix_append _ _
  · show joinPath dir (output_filename ⟨stem ++ '.' :: etail⟩) = _
    rw [output_filename, hsplit, joinPath, ← String.append_assoc]

/-- C8 witness: the spec's own scenario, "clip.MP4" in "/videos". -/
theorem output_extension_replaced_witness :
    isVideoFile "clip.MP4" = true ∧
    output_path "/videos" "clip.MP4" = "/videos" ++ "/" ++ "clip" ++ ".gif" := by
  have h := output_extension_replaced "/videos" (['c', 'l', 'i', 'p'])
      (['.', 'M', 'P', '4']) (by decide) (by decide)
  exact h

/-- C2: for every run (preflight passed, ffmpeg never disappearing mid-run)
in which candidate k exits non-zero with captured diagnostic text, the
worker emits both a progress event and an error event carrying k's file
name and that text, still attempts a conversion command for every one of
the N candidates, and emits the finished event whose converted count is the
number of zero-exit candidates — strictly below N, since k is excluded. -/
theorem per_file_failure_continues (env : WorkerEnv) (k : Nat) (stderr : String)
    (hok : env.ffmpeg = VersionQueryOutcome.ok)
    (hk : k < (candidateSet env.listing).length)
    (hfail : env.invoke k = InvokeOutcome.calledProcessError stderr)
    (hnf : ∀ j, j < (candidateSet env.listing).length →
        env.invoke j ≠ InvokeOutcome.fileNotFound) :
    Event.progress (errorProgressMsg ((candidateSet env.listing).getD k "") stderr)
        ∈ (workerRun env).events ∧
    Event.error (errorEventMsg ((candidateSet env.listing).getD k "") stderr)
        ∈ (workerRun env).events ∧
    (workerRun env).commands.length = (candidateSet env.listing).length ∧
    Event.finished (finishedMsg
        (countSuccess env.invoke 0 (candidateSet env.listing).length)
        (candidateSet env.listing).length) ∈ (workerRun env).events ∧
    countSuccess env.invoke 0 (candidateSet env.listing).length
      < (candidateSet env.listing).length := by
  have hne : candidateSet env.listing ≠ [] := by
    intro h0
    rw [h0] at hk
    simp at hk
  have hrun := workerRun_ok env hok hne
  have hev : (workerRun env).events
      = Event.progress (foundMsg (candidateSet env.listing).length)
          :: (workerLoopResult env).events
          ++ (if (workerLoopResult env).aborted then []
              else [Event.finished (finishedMsg (workerLoopResult env).converted
                      (candidateSet env.listing).length)]) := by rw [hrun]
  have hcmd : (workerRun env).commands = (workerLoopResult env).commands := by rw [hrun]
  obtain ⟨ha, hc, hl⟩ := runLoop_complete env.directory_path env.invoke
      (candidateSet env.listing).length (candidateSet env.listing) 0 0
      (fun j hj => by simpa using hnf j hj)
  obtain ⟨hp, he⟩ := runLoop_error_mem env.directory_path env.invoke
      (candidateSet env.listing).length (candidateSet env.listing) 0 0 k stderr hk
      (by simpa using hfail)
      (fun j hj => by simpa using hnf j (Nat.lt_trans hj hk))
  have ha' : (workerLoopResult env).aborted = false := ha
  have hc' : (workerLoopResult env).converted
      = countSuccess env.invoke 0 (candidateSet env.listing).length := by
    rw [show (workerLoopResult env).converted
          = 0 + countSuccess env.invoke 0 (candidateSet env.listing).length from hc,
        Nat.zero_add]
  have hl' : (workerLoopResult env).commands.length
      = (candidateSet env.listing).length := hl
  have hp' : Event.progress (errorProgressMsg ((candidateSet env.listing).getD k "") stderr)
      ∈ (workerLoopResult env).events := hp
  have he' : Event.error (errorEventMsg ((candidateSet env.listing).getD k "") stderr)
      ∈ (workerLoopResult env).events := he
  refine ⟨?_, ?_, ?_, ?_, ?_⟩
  · rw [hev]
    exact List.mem_cons_of_mem _ (List.mem_append_left _ hp')
  · rw [hev]
    exact List.mem_cons_of_mem _ (List.mem_append_left _ he')
  · rw [hcmd, hl']
  · rw [hev, ha', hc']
    simp
  · exact countSuccess_lt env.invoke (candidateSet env.listing).length 0 k hk
      (by simp [hfail])

/-- C2 witness: two candidates, the first exiting non-zero with diagnostic
"boom", the second succeeding. -/
theorem per_file_failure_continues_witness :
    Event.progress (errorProgressMsg ((candidateSet c1Env.listing).getD 0 "") "boom")
        ∈ (workerRun c1Env).events ∧
    Event.error (errorEventMsg ((candidateSet c1Env.listing).getD 0 "") "boom")
        ∈ (workerRun c1Env).events ∧
    (workerRun c1Env).commands.length = (candidateSet c1Env.listing).length ∧
    Event.finished (finishedMsg
        (countSuccess c1Env.invoke 0 (candidateSet c1Env.listing).length)
        (candidateSet c1Env.listing).length) ∈ (workerRun c1Env).events ∧
    countSuccess c1Env.invoke 0 (candidateSet c1Env.listing).length
      < (candidateSet c1Env.listing).length :=
  per_file_failure_continues c1Env 0 "boom" rfl (by decide) (by decide) (by decide)

/-- C3: for every run in which invoking the converter for candidate k (the
first such) raises the not-invocable condition after a successful
preflight, the worker emits the error event stating ffmpeg could not be
found, emits no finished event at all, and attempts no command beyond
candidate k — candidates k+1 .. N are never processed. -/
theorem midrun_disappearance_aborts (env : WorkerEnv) (k : Nat)
    (hok : env.ffmpeg = VersionQueryOutcome.ok)
    (hk : k < (candidateSet env.listing).length)
    (hfnf : env.invoke k = InvokeOutcome.fileNotFound)
    (hfirst : ∀ j, j < k → env.invoke j ≠ InvokeOutcome.fileNotFound) :
    Event.error ffmpegGoneMsg ∈ (workerRun env).events ∧
    (workerRun env).events.filter isFinishedEvent = [] ∧
    (workerRun env).commands.length = k + 1 := by
  have hne : candidateSet env.listing ≠ [] := by
    intro h0
    rw [h0] at hk
    simp at hk
  have hrun := workerRun_ok env hok hne
  have hev : (workerRun env).events
      = Event.progress (foundMsg (candidateSet env.listing).length)
          :: (workerLoopResult env).events
          ++ (if (workerLoopResult env).aborted then []
              else [Event.finished (finishedMsg (workerLoopResult env).converted
                      (candidateSet env.listing).length)]) := by rw [hrun]
  have hcmd : (workerRun env).commands = (workerLoopResult env).commands := by rw [hrun]
  obtain ⟨ha, hl, he⟩ := runLoop_fnf env.directory_path env.invoke
      (candidateSet env.listing).length (candidateSet env.listing) 0 0 k hk
      (by simpa using hfnf)
      (fun j hj => by simpa using hfirst j hj)
  have ha' : (workerLoopResult env).aborted = true := ha
  have hl' : (workerLoopResult env).commands.length = k + 1 := hl
  have he' : Event.error ffmpegGoneMsg ∈ (workerLoopResult env).events := he
  have hfl : (workerLoopResult env).events.filter isFinishedEvent = [] :=
    runLoop_filter_finished env.directory_path env.invoke
      (candidateSet env.listing).length (candidateSet env.listing) 0 0
  refine ⟨?_, ?_, ?_⟩
  · rw [hev]
    exact List.mem_cons_of_mem _ (List.mem_append_left _ he')
  · rw [hev, ha']
    simp [isFinishedEvent, List.filter_append, hfl]
  · rw [hcmd, hl']

/-- C3 witness: three candidates, ffmpeg disappearing at the second. -/
theorem midrun_disappearance_aborts_witness :
    Event.error ffmpegGoneMsg
        ∈ (workerRun ⟨"/v", VersionQueryOutcome.ok, ["a.mp4", "b.mp4", "c.avi"],
            fun i => if i = 1 then InvokeOutcome.fileNotFound
                     else InvokeOutcome.success⟩).events ∧
    (workerRun ⟨"/v", VersionQueryOutcome.ok, ["a.mp4", "b.mp4", "c.avi"],
        fun i => if i = 1 then InvokeOutcome.fileNotFound
                 else InvokeOutcome.success⟩).events.filter isFinishedEvent = [] ∧
    (workerRun ⟨"/v", VersionQueryOutcome.ok, ["a.mp4", "b.mp4", "c.avi"],
        fun i => if i = 1 then InvokeOutcome.fileNotFound
                 else InvokeOutcome.success⟩).commands.length = 1 + 1 :=
  midrun_disappearance_aborts _ 1 rfl (by decide) (by decide) (by decide)

/-- C5: for every run that passes preflight with a non-empty candidate set
and no mid-run disappearance, the worker emits exactly one finished event,
whose message is "Conversion process completed. Converted X of Y videos."
with X the number of candidates whose invocation exited zero and Y the
total candidate count; X never exceeds Y, and when every candidate
succeeds, X = Y. -/
theorem run_completion_message (env : WorkerEnv)
    (hok : env.ffmpeg = VersionQueryOutcome.ok)
    (hne : candidateSet env.listing ≠ [])
    (hnf : ∀ j, j < (candidateSet env.listing).length →
        env.invoke j ≠ InvokeOutcome.fileNotFound) :
    (workerRun env).events.filter isFinishedEvent
      = [Event.finished (finishedMsg
          (countSuccess env.invoke 0 (candidateSet env.listing).length)
          (candidateSet env.listing).length)] ∧
    countSuccess env.invoke 0 (candidateSet env.listing).length
      ≤ (candidateSet env.listing).length ∧
    ((∀ j, j < (candidateSet env.listing).length →
        env.invoke j = InvokeOutcome.success) →
      countSuccess env.invoke 0 (candidateSet env.listing).length
        = (candidateSet env.listing).length) := by
  have hrun := workerRun_ok env hok hne
  have hev : (workerRun env).events
      = Event.progress (foundMsg (candidateSet env.listing).length)
          :: (workerLoopResult env).events
          ++ (if (workerLoopResult env).aborted then []
              else [Event.finished (finishedMsg (workerLoopResult env).converted
                      (candidateSet env.listing).length)]) := by rw [hrun]
  obtain ⟨ha, hc, hl⟩ := runLoop_complete env.directory_path env.invoke
      (candidateSet env.listing).length (candidateSet env.listing) 0 0
      (fun j hj => by simpa using hnf j hj)
  have ha' : (workerLoopResult env).aborted = false := ha
  have hc' : (workerLoopResult env).converted
      = countSuccess env.invoke 0 (candidateSet env.listing).length := by
    rw [show (workerLoopResult env).converted
          = 0 + countSuccess env.invoke 0 (candidateSet env.listing).length from hc,
        Nat.zero_add]
  have hfl : (workerLoopResult env).events.filter isFinishedEvent = [] :=
    runLoop_filter_finished env.directory_path env.invoke
      (candidateSet env.listing).length (candidateSet env.listing) 0 0
  refine ⟨?_, countSuccess_le env.invoke (candidateSet env.listing).length 0, ?_⟩
  · rw [hev, ha', hc']
    simp [isFinishedEvent, List.filter_append, hfl]
  · intro hall
    exact countSuccess_all env.invoke (candidateSet env.listing).length 0
      (fun j hj => by simpa using hall j hj)

/-- C5 witness: two candidates, both succeeding. -/
theorem run_completion_message_witness :
    (workerRun ⟨"/v", VersionQueryOutcome.ok, ["a.mp4", "b.mp4"],
        fun _ => InvokeOutcome.success⟩).events.filter isFinishedEvent
      = [Event.finished (finishedMsg
          (countSuccess (fun _ => InvokeOutcome.success) 0
            (candidateSet ["a.mp4", "b.mp4"]).length)
          (candidateSet ["a.mp4", "b.mp4"]).length)] ∧
    countSuccess (fun _ => InvokeOutcome.success) 0
        (candidateSet ["a.mp4", "b.mp4"]).length
      ≤ (candidateSet ["a.mp4", "b.mp4"]).length ∧
    ((∀ j, j < (candidateSet ["a.mp4", "b.mp4"]).length →
        (fun _ => InvokeOutcome.success) j = InvokeOutcome.success) →
      countSuccess (fun _ => InvokeOutcome.success) 0
          (candidateSet ["a.mp4", "b.mp4"]).length
        = (candidateSet ["a.mp4", "b.mp4"]).length) :=
  run_completion_message ⟨"/v", VersionQueryOutcome.ok, ["a.mp4", "b.mp4"],
      fun _ => InvokeOutcome.success⟩ rfl (by decide) (by decide)

/-- C1 counterexample: with two candidates where the first conversion exits
non-zero, the worker emits a non-fatal error event mid-run; after the shell
has stored a directory, started the run, and received only the first four
events, the start (convert) control is enabled again even though the worker
still has three events to emit and a second candidate to convert — so
starting a second worker while one is in flight is possible. -/
theorem start_control_counterexample :
    (((workerRun c1Env).events.take 4).foldl deliver
        (runShell [ShellStep.browseClick "/videos", ShellStep.startClick])).convert_enabled
      = true ∧
    4 < (workerRun c1Env).events.length ∧
    (workerRun c1Env).commands.length = 2 := by decide

/-- C1 (amended): over every reachable shell state, the start control is
disabled whenever no directory is stored, and after a click on the start
control it stays disabled as long as only progress events have been
delivered; it is first re-enabled by a finished or error event — which,
because per-file failures emit error events before the run ends, can occur
while the worker is still active, as the counterexample run shows. -/
theorem start_control_gating (steps : List ShellStep) (msgs : List String) :
    ((runShell steps).directory_path = "" → (runShell steps).convert_enabled = false) ∧
    ((msgs.map Event.progress).foldl deliver
        (shellStep (runShell steps) ShellStep.startClick)).convert_enabled = false := by
  constructor
  · intro hd
    by_contra hcon
    exact shell_inv steps (by simpa using hcon) hd
  · exact deliver_progress_keeps_disabled msgs _
      (start_click_disables _ (shell_inv steps))

end GIFME
